import Mathlib

/-!
Verification of the prisma-soft-delete-middleware request-rewriting pipeline.

The middleware (src/unnamed/part_000, with the policy-gated update-stamp
block taken from src/middleware.ts) registers interceptors that rewrite a
Prisma operation descriptor in place:

1. lookup rewriting: findUnique becomes findFirst with a flattened where
   predicate plus an injected not-deleted filter; findMany gets the filter
   injected unless the caller set it explicitly;
2. update stamping (policy-gated, commented out in one variant): update and
   updateMany get an updatedAt value stamped into the data bag;
3. tombstone rewriting: delete becomes update with a fresh tombstone data
   bag; deleteMany becomes updateMany with the tombstone fields merged into
   any pre-existing data bag;
4. relation inclusion: every truthy include entry whose key is not in the
   skip list gets the not-deleted filter added to its where clause.

JavaScript runtime values are modelled by an inductive type; objects are
ordered field lists (JS insertion order).  A thrown TypeError is modelled
as Option.none.  The wall-clock value produced by a new Date() call is
threaded in as a Nat parameter.
-/

set_option autoImplicit false

namespace SoftDelete

mutual
/-- A JavaScript runtime value as it occurs in middleware arguments:
undefined, null, booleans, numbers, strings, Date objects (carrying their
timestamp) and plain objects as ordered field lists. -/
inductive JSVal where
  | vUndef : JSVal
  | vNull : JSVal
  | vBool : Bool → JSVal
  | vNum : Int → JSVal
  | vStr : String → JSVal
  | vDate : Nat → JSVal
  | vObj : JSFields → JSVal
deriving DecidableEq, Repr

/-- The ordered own-property list of a JS object. -/
inductive JSFields where
  | fnil : JSFields
  | fcons : String → JSVal → JSFields → JSFields
deriving DecidableEq, Repr
end

namespace JSFields

/-- Property read on a field list: the value at the first matching key, or
undefined when the key is absent. -/
def getField : JSFields → String → JSVal
  | .fnil, _ => .vUndef
  | .fcons k' v rest, k => if k' = k then v else getField rest k

/-- JS own-property test on a field list. -/
def hasField : JSFields → String → Bool
  | .fnil, _ => false
  | .fcons k' _ rest, k => if k' = k then true else hasField rest k

/-- JS property assignment obj[k] = v: overwrites the value in place when
the key exists (keeping its position), otherwise appends a new entry. -/
def setField : JSFields → String → JSVal → JSFields
  | .fnil, k, v => .fcons k v .fnil
  | .fcons k' v' rest, k, v =>
      if k' = k then .fcons k' v rest else .fcons k' v' (setField rest k v)

/-- Concatenation of two field lists. -/
def fappend : JSFields → JSFields → JSFields
  | .fnil, g => g
  | .fcons k v rest, g => .fcons k v (fappend rest g)

/-- The keys of a field list, in order. -/
def keys : JSFields → List String
  | .fnil => []
  | .fcons k _ rest => k :: keys rest

/-- Conversion from a plain Lean association list, for readable statements. -/
def ofList : List (String × JSVal) → JSFields
  | [] => .fnil
  | (k, v) :: rest => .fcons k v (ofList rest)

end JSFields

namespace JSVal

open JSFields

/-- The JS typeof operator.  Note that typeof null is "object", and Date
objects are also "object". -/
def jsTypeof : JSVal → String
  | .vUndef => "undefined"
  | .vNull => "object"
  | .vBool _ => "boolean"
  | .vNum _ => "number"
  | .vStr _ => "string"
  | .vDate _ => "object"
  | .vObj _ => "object"

/-- JS truthiness: undefined, null, false, 0 and the empty string are
falsy; every object (even an empty one) is truthy. -/
def truthy : JSVal → Bool
  | .vUndef => false
  | .vNull => false
  | .vBool b => b
  | .vNum n => decide (n ≠ 0)
  | .vStr s => decide (s ≠ "")
  | .vDate _ => true
  | .vObj _ => true

/-- Object.entries: throws a TypeError on null and undefined (ToObject
fails); yields the own enumerable entries of a plain object; a boxed
primitive or a Date has none.  The middleware only calls this on values
whose typeof is "object", so string index entries never arise. -/
def jsEntries : JSVal → Option JSFields
  | .vUndef => none
  | .vNull => none
  | .vObj f => some f
  | _ => some .fnil

/-- Object.prototype.hasOwnProperty.call(v, k): throws on null and
undefined receivers, otherwise tests for an own property (boxed primitives
and Dates own no such named property). -/
def jsHasOwn : JSVal → String → Option Bool
  | .vUndef, _ => none
  | .vNull, _ => none
  | .vObj f, k => some (hasField f k)
  | _, _ => some false

/-- Object spread in a literal: a plain object contributes its entries;
null, undefined, boxed primitives and Dates contribute nothing. -/
def jsSpread : JSVal → JSFields
  | .vObj f => f
  | _ => .fnil

/-- Property read v.k through a value that may not be a plain object: a
plain object looks the key up, any other value yields undefined.  Reads
off null and undefined throw and are handled at the call sites. -/
def jsGetProp : JSVal → String → JSVal
  | .vObj f, k => getField f k
  | _, _ => .vUndef

end JSVal

open JSVal JSFields

/-- A Prisma middleware operation descriptor: target model, action kind,
and the semi-structured arguments bag (vUndef when the caller passed no
arguments object). -/
structure Params where
  model : String
  action : String
  args : JSVal
deriving DecidableEq, Repr

/-- The static skip list of model names exempted from rewriting. -/
def skipList : List String := ["expand", "organization", "parentOrganization"]

/-- The not-deleted filter object injected everywhere. -/
def notDeletedWhere : JSVal := .vObj (.fcons "isDeleted" (.vBool false) .fnil)

/-- The tombstone data bag written by the delete rewrites. -/
def tombstoneData (now : Nat) : JSVal :=
  .vObj (.fcons "isDeleted" (.vBool true) (.fcons "deletedAt" (.vDate now) .fnil))

/-- Hoisting loop body: copy every member of a nested composite-key value
up one level into the accumulated predicate. -/
def hoistInto : JSFields → JSFields → JSFields
  | acc, .fnil => acc
  | acc, .fcons k v rest => hoistInto (setField acc k v) rest

/-- One iteration of the findUnique where-rebuilding loop: a value whose
typeof is not "object" is put back as-is; otherwise its members are hoisted
up one level via Object.entries (which throws on null, since typeof null is
"object"). -/
def processWhereEntry (acc : JSFields) (k : String) (v : JSVal) : Option JSFields :=
  if jsTypeof v ≠ "object" then
    some (setField acc k v)
  else
    (jsEntries v).map (fun inner => hoistInto acc inner)

/-- The full findUnique where-rebuilding loop over the original entries. -/
def rebuildWhere : JSFields → JSFields → Option JSFields
  | acc, .fnil => some acc
  | acc, .fcons k v rest => do
      let acc2 ← processWhereEntry acc k v
      rebuildWhere acc2 rest

/-- The findUnique branch of the lookup middleware: coerce to findFirst,
rebuild the where predicate with composite keys flattened one level, then
set the isDeleted filter unconditionally.  Reading args.where off a missing
bag, or running Object.entries on a missing or null where, throws. -/
def findUniqueRewrite (p : Params) : Option Params :=
  match p.args with
  | .vObj argFields => do
      let whereV := getField argFields "where"
      let entries ← jsEntries whereV
      let newWhere ← rebuildWhere .fnil entries
      let newWhere := setField newWhere "isDeleted" (.vBool false)
      some { p with
             action := "findFirst"
             args := .vObj (setField argFields "where" (.vObj newWhere)) }
  | _ => none

/-- The findMany branch of the lookup middleware: initialize a falsy args
bag to an empty object; when a where clause exists and its isDeleted value
is strictly undefined, set it to false; when no where clause exists, create
one holding the filter.  A non-object where value throws on the strict-mode
property access or assignment. -/
def findManyRewrite (p : Params) : Option Params :=
  let args := if truthy p.args then p.args else .vObj .fnil
  match args with
  | .vObj argFields =>
      let whereV := getField argFields "where"
      if whereV = .vUndef then
        some { p with args := .vObj (setField argFields "where" notDeletedWhere) }
      else
        match whereV with
        | .vObj whereFields =>
            if getField whereFields "isDeleted" = .vUndef then
              some { p with args := .vObj (setField argFields "where"
                       (.vObj (setField whereFields "isDeleted" (.vBool false)))) }
            else
              some { p with args := args }
        | _ => none
  | _ => none

/-- The first registered middleware (lookups): skip-listed models pass
through; findUnique is rewritten to findFirst with a flattened, filtered
where; findMany gets the isDeleted filter injected unless explicitly set
by the caller. -/
def lookupStage (p : Params) : Option Params :=
  if skipList.contains p.model then some p
  else do
    let p1 ← if p.action = "findUnique" then findUniqueRewrite p else some p
    if p1.action = "findMany" then findManyRewrite p1 else some p1

/-- The update-stamping middleware from src/middleware.ts: update and
updateMany get an updatedAt value stamped into args.data, with falsy args
and data bags initialized to empty objects first. -/
def updateStampStage (now : Nat) (p : Params) : Option Params :=
  if p.action = "updateMany" ∨ p.action = "update" then
    match (if truthy p.args then p.args else .vObj .fnil) with
    | .vObj argFields =>
        match (if truthy (getField argFields "data") then getField argFields "data"
               else .vObj .fnil) with
        | .vObj dataFields =>
            some { p with args := .vObj (setField argFields "data"
                     (.vObj (setField dataFields "updatedAt" (.vDate now)))) }
        | _ => none
    | _ => none
  else some p

/-- The policy toggle for update stamping: src/middleware.ts registers the
stage, src/unnamed/part_000 keeps it commented out. -/
def updateStampPolicy (enabled : Bool) (now : Nat) (p : Params) : Option Params :=
  if enabled then updateStampStage now p else some p

/-- The delete branch of the tombstone middleware: reassign the action to
update and destructively replace args.data with the tombstone bag.  The
assignment throws when the args bag is missing. -/
def deleteRewrite (now : Nat) (p : Params) : Option Params :=
  match p.args with
  | .vObj argFields =>
      some { p with
             action := "update"
             args := .vObj (setField argFields "data" (tombstoneData now)) }
  | _ => none

/-- The deleteMany branch of the tombstone middleware: initialize a falsy
args bag, reassign the action to updateMany, and either merge the tombstone
fields into a pre-existing data bag (the loose inequality data != undefined
also sends null to the fresh branch) or create the bag fresh. -/
def deleteManyRewrite (now : Nat) (p : Params) : Option Params :=
  let args := if truthy p.args then p.args else .vObj .fnil
  match args with
  | .vObj argFields =>
      let dataV := getField argFields "data"
      if dataV = .vUndef ∨ dataV = .vNull then
        some { p with
               action := "updateMany"
               args := .vObj (setField argFields "data" (tombstoneData now)) }
      else
        match dataV with
        | .vObj dataFields =>
            some { p with
                   action := "updateMany"
                   args := .vObj (setField argFields "data"
                     (.vObj (setField (setField dataFields "isDeleted" (.vBool true))
                        "deletedAt" (.vDate now)))) }
        | _ => none
  | _ => none

/-- The tombstone middleware: skip-listed models pass through; delete and
deleteMany are converted to update and updateMany with tombstone data. -/
def tombstoneStage (now : Nat) (p : Params) : Option Params :=
  if skipList.contains p.model then some p
  else do
    let p1 ← if p.action = "delete" then deleteRewrite now p else some p
    if p1.action = "deleteMany" then deleteManyRewrite now p1 else some p1

/-- One include entry of the relation-inclusion middleware: falsy entries
are left alone; a boolean entry becomes an object whose where is the
not-deleted filter; an object entry gains the filter in its where clause
unless the caller already set an own isDeleted property there. -/
def rewriteIncludeEntry (element : JSVal) : Option JSVal :=
  if truthy element = false then some element
  else if jsTypeof element = "boolean" then
    some (.vObj (.fcons "where" notDeletedWhere .fnil))
  else if jsTypeof element = "object" then do
    let hasWhere ← jsHasOwn element "where"
    if hasWhere = false then
      some (.vObj (setField (jsSpread element) "where" notDeletedWhere))
    else
      let whereV := jsGetProp element "where"
      let hasIsDel ← jsHasOwn whereV "isDeleted"
      if hasIsDel = false then
        some (.vObj (setField (jsSpread element) "where"
          (.vObj (setField (jsSpread whereV) "isDeleted" (.vBool false)))))
      else some element
  else some element

/-- The for..in loop of the relation-inclusion middleware over the include
object: keys naming a skip-listed model are skipped, all other entries are
rewritten in place. -/
def rewriteIncludeFields : JSFields → Option JSFields
  | .fnil => some .fnil
  | .fcons k v rest => do
      let v2 ← if skipList.contains k then some v else rewriteIncludeEntry v
      let rest2 ← rewriteIncludeFields rest
      some (.fcons k v2 rest2)

/-- The relation-inclusion middleware: destructuring include out of a
missing args bag throws; a falsy or non-object include value leaves the
descriptor untouched; otherwise every include entry is rewritten.  Note
that this stage never consults the skip list for the model of the
descriptor itself, only for include keys. -/
def includeStage (p : Params) : Option Params :=
  match p.args with
  | .vUndef => none
  | .vNull => none
  | args =>
      let includeV := jsGetProp args "include"
      if truthy includeV then
        match includeV, args with
        | .vObj incFields, .vObj argFields => do
            let newFields ← rewriteIncludeFields incFields
            some { p with args := .vObj (setField argFields "include" (.vObj newFields)) }
        | _, _ => some p
      else some p

/-- The full chain in registration order: lookups, the policy-gated update
stamp, tombstoning, relation inclusion. -/
def applyMiddleware (enabled : Bool) (now : Nat) (p : Params) : Option Params := do
  let p1 ← lookupStage p
  let p2 ← updateStampPolicy enabled now p1
  let p3 ← tombstoneStage now p2
  includeStage p3

/-! Basic lemmas about property access and assignment. -/

theorem getField_setField_self :
    ∀ (f : JSFields) (k : String) (v : JSVal), getField (setField f k v) k = v
  | .fnil, k, v => by simp [setField, getField]
  | .fcons k2 v2 rest, k, v => by
      by_cases h : k2 = k <;>
        simp [setField, getField, h, getField_setField_self rest k v]

theorem getField_setField_ne :
    ∀ (f : JSFields) (k k2 : String) (v : JSVal), k ≠ k2 →
      getField (setField f k v) k2 = getField f k2
  | .fnil, k, k2, v, h => by simp [setField, getField, h]
  | .fcons k3 v3 rest, k, k2, v, h => by
      by_cases h3 : k3 = k <;>
        simp [setField, getField, h3, h, getField_setField_ne rest k k2 v h]

theorem hasField_setField_self :
    ∀ (f : JSFields) (k : String) (v : JSVal), hasField (setField f k v) k = true
  | .fnil, k, v => by simp [setField, hasField]
  | .fcons k2 v2 rest, k, v => by
      by_cases h : k2 = k <;>
        simp [setField, hasField, h, hasField_setField_self rest k v]

theorem setField_setField_self :
    ∀ (f : JSFields) (k : String) (v w : JSVal),
      setField (setField f k v) k w = setField f k w
  | .fnil, k, v, w => by simp [setField]
  | .fcons k2 v2 rest, k, v, w => by
      by_cases h : k2 = k <;>
        simp [setField, h, setField_setField_self rest k v w]

theorem setField_eq_self :
    ∀ (f : JSFields) (k : String) (v : JSVal), getField f k = v → v ≠ .vUndef →
      setField f k v = f
  | .fnil, k, v, hg, hv => by
      simp [getField] at hg
      exact absurd hg.symm hv
  | .fcons k2 v2 rest, k, v, hg, hv => by
      by_cases h : k2 = k
      · simp [getField, h] at hg
        simp [setField, h, hg]
      · simp [getField, h] at hg
        simp [setField, h, setField_eq_self rest k v hg hv]

theorem hasField_of_getField :
    ∀ (f : JSFields) (k : String), getField f k ≠ .vUndef → hasField f k = true
  | .fnil, k, h => by simp [getField] at h
  | .fcons k2 v2 rest, k, h => by
      by_cases h2 : k2 = k
      · simp [hasField, h2]
      · simp [getField, h2] at h
        simp [hasField, h2, hasField_of_getField rest k h]

theorem setField_of_not_hasField :
    ∀ (f : JSFields) (k : String) (v : JSVal), hasField f k = false →
      setField f k v = fappend f (.fcons k v .fnil)
  | .fnil, k, v, _ => by simp [setField, fappend]
  | .fcons k2 v2 rest, k, v, h => by
      by_cases h2 : k2 = k
      · simp [hasField, h2] at h
      · simp [hasField, h2] at h
        simp [setField, fappend, h2, setField_of_not_hasField rest k v h]

/-! Pass-through lemmas for the individual stages. -/

theorem lookupStage_skip (p : Params) (h : skipList.contains p.model = true) :
    lookupStage p = some p := by
  have hm : p.model ∈ skipList := by simpa using h
  simp [lookupStage, hm]

theorem tombstoneStage_skip (now : Nat) (p : Params)
    (h : skipList.contains p.model = true) : tombstoneStage now p = some p := by
  have hm : p.model ∈ skipList := by simpa using h
  simp [tombstoneStage, hm]

theorem tombstoneStage_notDelete (now : Nat) (p : Params)
    (h : skipList.contains p.model = false)
    (h1 : p.action ≠ "delete") (h2 : p.action ≠ "deleteMany") :
    tombstoneStage now p = some p := by
  have hm : p.model ∉ skipList := by simpa using h
  simp [tombstoneStage, hm, h1, h2]

theorem updateStampStage_other (now : Nat) (p : Params)
    (h1 : p.action ≠ "updateMany") (h2 : p.action ≠ "update") :
    updateStampStage now p = some p := by
  simp [updateStampStage, h1, h2]

theorem findManyRewrite_fixed (m a : String) (af wf : JSFields)
    (hw : getField af "where" = .vObj wf)
    (hd : getField wf "isDeleted" ≠ .vUndef) :
    findManyRewrite ⟨m, a, .vObj af⟩ = some ⟨m, a, .vObj af⟩ := by
  simp [findManyRewrite, truthy, hw, hd]

theorem findManyRewrite_spec (p q : Params) (h : findManyRewrite p = some q) :
    q.model = p.model ∧ q.action = p.action ∧
    ∃ af wf, q.args = .vObj af ∧ getField af "where" = .vObj wf ∧
      getField wf "isDeleted" ≠ .vUndef := by
  obtain ⟨m, a, args⟩ := p
  rcases hA : (if truthy args then args else JSVal.vObj .fnil) with _ | _ | b | n | s | t | argFields
  all_goals simp [findManyRewrite, hA] at h
  rcases hw : getField argFields "where" with _ | _ | b2 | n2 | s2 | t2 | wf
  all_goals simp [hw] at h
  · subst h
    refine ⟨rfl, rfl, setField argFields "where" notDeletedWhere,
      .fcons "isDeleted" (.vBool false) .fnil, rfl, ?_, by simp [getField]⟩
    simpa [notDeletedWhere] using
      getField_setField_self argFields "where" notDeletedWhere
  · by_cases hd : getField wf "isDeleted" = JSVal.vUndef
    · simp [hd] at h
      subst h
      refine ⟨rfl, rfl,
        setField argFields "where" (.vObj (setField wf "isDeleted" (.vBool false))),
        setField wf "isDeleted" (.vBool false), rfl,
        getField_setField_self argFields "where" _, ?_⟩
      simp [getField_setField_self wf "isDeleted" (JSVal.vBool false)]
    · simp [hd] at h
      subst h
      exact ⟨rfl, rfl, argFields, wf, rfl, hw, hd⟩

/-! Idempotence of the relation-inclusion rewriting. -/

theorem rewriteIncludeEntry_idem (e e2 : JSVal)
    (h : rewriteIncludeEntry e = some e2) : rewriteIncludeEntry e2 = some e2 := by
  rcases e with _ | _ | b | n | s | t | ef
  · simp [rewriteIncludeEntry, truthy] at h
    subst h
    simp [rewriteIncludeEntry, truthy]
  · simp [rewriteIncludeEntry, truthy] at h
    subst h
    simp [rewriteIncludeEntry, truthy]
  · rcases b with _ | _
    · simp [rewriteIncludeEntry, truthy] at h
      subst h
      simp [rewriteIncludeEntry, truthy]
    · simp [rewriteIncludeEntry, truthy, jsTypeof] at h
      subst h
      decide
  · by_cases hn : n = 0
    · subst hn
      simp [rewriteIncludeEntry, truthy] at h
      subst h
      simp [rewriteIncludeEntry, truthy]
    · simp [rewriteIncludeEntry, truthy, jsTypeof, hn] at h
      subst h
      simp [rewriteIncludeEntry, truthy, jsTypeof, hn]
  · by_cases hs : s = ""
    · subst hs
      simp [rewriteIncludeEntry, truthy] at h
      subst h
      simp [rewriteIncludeEntry, truthy]
    · simp [rewriteIncludeEntry, truthy, jsTypeof, hs] at h
      subst h
      simp [rewriteIncludeEntry, truthy, jsTypeof, hs]
  · simp [rewriteIncludeEntry, truthy, jsTypeof, jsHasOwn, jsSpread] at h
    subst h
    decide
  · by_cases hw : hasField ef "where"
    · rcases hgw : getField ef "where" with _ | _ | b2 | n2 | s2 | t2 | wf
      · simp [rewriteIncludeEntry, truthy, jsTypeof, jsHasOwn, jsGetProp,
          hw, hgw] at h
      · simp [rewriteIncludeEntry, truthy, jsTypeof, jsHasOwn, jsGetProp,
          hw, hgw] at h
      · simp [rewriteIncludeEntry, truthy, jsTypeof, jsHasOwn, jsSpread,
          jsGetProp, hw, hgw] at h
        subst h
        simp [rewriteIncludeEntry, truthy, jsTypeof, jsHasOwn, jsSpread,
          jsGetProp, hasField_setField_self, getField_setField_self, hasField]
      · simp [rewriteIncludeEntry, truthy, jsTypeof, jsHasOwn, jsSpread,
          jsGetProp, hw, hgw] at h
        subst h
        simp [rewriteIncludeEntry, truthy, jsTypeof, jsHasOwn, jsSpread,
          jsGetProp, hasField_setField_self, getField_setField_self, hasField]
      · simp [rewriteIncludeEntry, truthy, jsTypeof, jsHasOwn, jsSpread,
          jsGetProp, hw, hgw] at h
        subst h
        simp [rewriteIncludeEntry, truthy, jsTypeof, jsHasOwn, jsSpread,
          jsGetProp, hasField_setField_self, getField_setField_self, hasField]
      · simp [rewriteIncludeEntry, truthy, jsTypeof, jsHasOwn, jsSpread,
          jsGetProp, hw, hgw] at h
        subst h
        simp [rewriteIncludeEntry, truthy, jsTypeof, jsHasOwn, jsSpread,
          jsGetProp, hasField_setField_self, getField_setField_self, hasField]
      · by_cases hid : hasField wf "isDeleted" = true
        · simp [rewriteIncludeEntry, truthy, jsTypeof, jsHasOwn, jsSpread,
            jsGetProp, hw, hgw, hid] at h
          subst h
          simp [rewriteIncludeEntry, truthy, jsTypeof, jsHasOwn, jsSpread,
            jsGetProp, hw, hgw, hid]
        · simp [rewriteIncludeEntry, truthy, jsTypeof, jsHasOwn, jsSpread,
            jsGetProp, hw, hgw, hid] at h
          subst h
          simp [rewriteIncludeEntry, truthy, jsTypeof, jsHasOwn, jsSpread,
            jsGetProp, hasField_setField_self, getField_setField_self]
    · simp [rewriteIncludeEntry, truthy, jsTypeof, jsHasOwn, jsSpread,
        jsGetProp, hw] at h
      subst h
      simp [rewriteIncludeEntry, truthy, jsTypeof, jsHasOwn, jsSpread,
        jsGetProp, hasField_setField_self, getField_setField_self,
        notDeletedWhere, hasField]

theorem rewriteIncludeFields_idem :
    ∀ (l l2 : JSFields), rewriteIncludeFields l = some l2 →
      rewriteIncludeFields l2 = some l2
  | .fnil, l2, h => by
      simp [rewriteIncludeFields] at h
      subst h
      simp [rewriteIncludeFields]
  | .fcons k v rest, l2, h => by
      by_cases hk : k ∈ skipList
      · rcases hrest : rewriteIncludeFields rest with _ | rest2
        · simp [rewriteIncludeFields, hk, hrest] at h
        · simp [rewriteIncludeFields, hk, hrest] at h
          subst h
          simp [rewriteIncludeFields, hk, rewriteIncludeFields_idem rest rest2 hrest]
      · rcases hv : rewriteIncludeEntry v with _ | v2
        · simp [rewriteIncludeFields, hk, hv] at h
        · rcases hrest : rewriteIncludeFields rest with _ | rest2
          · simp [rewriteIncludeFields, hk, hv, hrest] at h
          · simp [rewriteIncludeFields, hk, hv, hrest] at h
            subst h
            simp [rewriteIncludeFields, hk, rewriteIncludeEntry_idem v v2 hv,
              rewriteIncludeFields_idem rest rest2 hrest]

theorem rewriteIncludeFields_skipKeys :
    ∀ (l : JSFields), (∀ k ∈ keys l, k ∈ skipList) →
      rewriteIncludeFields l = some l
  | .fnil, _ => by simp [rewriteIncludeFields]
  | .fcons k v rest, h => by
      have hk : k ∈ skipList := h k (by simp [keys])
      have hrest : ∀ k2 ∈ keys rest, k2 ∈ skipList := by
        intro k2 hk2
        exact h k2 (by simp [keys, hk2])
      simp [rewriteIncludeFields, hk, rewriteIncludeFields_skipKeys rest hrest]

theorem includeStage_spec (p q : Params) (h : includeStage p = some q) :
    q.model = p.model ∧ q.action = p.action ∧
    (q.args = p.args ∨
      ∃ af nf, p.args = .vObj af ∧ q.args = .vObj (setField af "include" (.vObj nf))) := by
  obtain ⟨m, a, args⟩ := p
  rcases args with _ | _ | b | n | s | t | argFields
  · simp [includeStage] at h
  · simp [includeStage] at h
  · simp [includeStage, jsGetProp, truthy] at h
    subst h
    exact ⟨rfl, rfl, Or.inl rfl⟩
  · simp [includeStage, jsGetProp, truthy] at h
    subst h
    exact ⟨rfl, rfl, Or.inl rfl⟩
  · simp [includeStage, jsGetProp, truthy] at h
    subst h
    exact ⟨rfl, rfl, Or.inl rfl⟩
  · simp [includeStage, jsGetProp, truthy] at h
    subst h
    exact ⟨rfl, rfl, Or.inl rfl⟩
  · by_cases ht : truthy (getField argFields "include") = true
    · rcases hi : getField argFields "include" with _ | _ | b2 | n2 | s2 | t2 | incFields
      all_goals rw [hi] at ht
      all_goals simp [truthy] at ht
      · subst ht
        simp [includeStage, jsGetProp, hi, truthy] at h
        subst h
        exact ⟨rfl, rfl, Or.inl rfl⟩
      · simp [includeStage, jsGetProp, hi, truthy, ht] at h
        subst h
        exact ⟨rfl, rfl, Or.inl rfl⟩
      · simp [includeStage, jsGetProp, hi, truthy, ht] at h
        subst h
        exact ⟨rfl, rfl, Or.inl rfl⟩
      · simp [includeStage, jsGetProp, hi, truthy] at h
        subst h
        exact ⟨rfl, rfl, Or.inl rfl⟩
      · rcases hnf : rewriteIncludeFields incFields with _ | nf
        · simp [includeStage, jsGetProp, hi, truthy, hnf] at h
        · simp [includeStage, jsGetProp, hi, truthy, hnf] at h
          subst h
          exact ⟨rfl, rfl, Or.inr ⟨argFields, nf, rfl, rfl⟩⟩
    · simp [includeStage, jsGetProp, ht] at h
      subst h
      exact ⟨rfl, rfl, Or.inl rfl⟩

theorem includeStage_idem (p q : Params) (h : includeStage p = some q) :
    includeStage q = some q := by
  obtain ⟨m, a, args⟩ := p
  rcases args with _ | _ | b | n | s | t | argFields
  · simp [includeStage] at h
  · simp [includeStage] at h
  · simp [includeStage, jsGetProp, truthy] at h
    subst h
    simp [includeStage, jsGetProp, truthy]
  · simp [includeStage, jsGetProp, truthy] at h
    subst h
    simp [includeStage, jsGetProp, truthy]
  · simp [includeStage, jsGetProp, truthy] at h
    subst h
    simp [includeStage, jsGetProp, truthy]
  · simp [includeStage, jsGetProp, truthy] at h
    subst h
    simp [includeStage, jsGetProp, truthy]
  · by_cases ht : truthy (getField argFields "include") = true
    · rcases hi : getField argFields "include" with _ | _ | b2 | n2 | s2 | t2 | incFields
      all_goals rw [hi] at ht
      all_goals simp [truthy] at ht
      · subst ht
        simp [includeStage, jsGetProp, hi, truthy] at h
        subst h
        simp [includeStage, jsGetProp, hi, truthy]
      · simp [includeStage, jsGetProp, hi, truthy, ht] at h
        subst h
        simp [includeStage, jsGetProp, hi, truthy, ht]
      · simp [includeStage, jsGetProp, hi, truthy, ht] at h
        subst h
        simp [includeStage, jsGetProp, hi, truthy, ht]
      · simp [includeStage, jsGetProp, hi, truthy] at h
        subst h
        simp [includeStage, jsGetProp, hi, truthy]
      · rcases hnf : rewriteIncludeFields incFields with _ | nf
        · simp [includeStage, jsGetProp, hi, truthy, hnf] at h
        · simp [includeStage, jsGetProp, hi, truthy, hnf] at h
          subst h
          simp [includeStage, jsGetProp, truthy, getField_setField_self,
            rewriteIncludeFields_idem incFields nf hnf, setField_setField_self]
    · simp [includeStage, jsGetProp, ht] at h
      subst h
      simp [includeStage, jsGetProp, ht]

/-! Claim theorems. -/

/-- C1: for a non-skip-listed model, the tombstone stage turns a delete
descriptor into an update whose data bag is replaced entirely by the
tombstone fields (discarding any caller-supplied data), and turns a
deleteMany descriptor with a pre-existing data bag into an updateMany
whose data bag is the caller bag with the tombstone fields merged in,
all caller-set fields retained. -/
theorem claim_C1 (now : Nat) (m : String) (af af2 df : JSFields)
    (hm : skipList.contains m = false)
    (hdata : getField af2 "data" = .vObj df) :
    tombstoneStage now ⟨m, "delete", .vObj af⟩
      = some ⟨m, "update", .vObj (setField af "data" (tombstoneData now))⟩
    ∧ tombstoneStage now ⟨m, "deleteMany", .vObj af2⟩
      = some ⟨m, "updateMany", .vObj (setField af2 "data"
          (.vObj (setField (setField df "isDeleted" (.vBool true))
            "deletedAt" (.vDate now))))⟩
    ∧ ∀ k, k ≠ "isDeleted" → k ≠ "deletedAt" →
        getField (setField (setField df "isDeleted" (.vBool true))
          "deletedAt" (.vDate now)) k = getField df k := by
  have hm2 : m ∉ skipList := by simpa using hm
  refine ⟨?_, ?_, ?_⟩
  · simp [tombstoneStage, hm2, deleteRewrite]
  · simp [tombstoneStage, hm2, deleteManyRewrite, truthy, hdata]
  · intro k hk1 hk2
    rw [getField_setField_ne _ _ _ _ (Ne.symm hk2),
      getField_setField_ne _ _ _ _ (Ne.symm hk1)]

/-- C1 witness at a concrete delete and deleteMany descriptor. -/
theorem claim_C1_witness :
    tombstoneStage 7 ⟨"user", "delete",
        .vObj (ofList [("where", .vObj (ofList [("id", .vStr "a")])),
          ("data", .vObj (ofList [("x", .vNum 1)]))])⟩
      = some ⟨"user", "update",
          .vObj (ofList [("where", .vObj (ofList [("id", .vStr "a")])),
            ("data", tombstoneData 7)])⟩
    ∧ tombstoneStage 7 ⟨"user", "deleteMany",
        .vObj (ofList [("data", .vObj (ofList [("x", .vNum 1)]))])⟩
      = some ⟨"user", "updateMany",
          .vObj (ofList [("data", .vObj (ofList [("x", .vNum 1),
            ("isDeleted", .vBool true), ("deletedAt", .vDate 7)]))])⟩
    ∧ getField (setField (setField (ofList [("x", .vNum 1)]) "isDeleted" (.vBool true))
        "deletedAt" (.vDate 7)) "x" = getField (ofList [("x", .vNum 1)]) "x" := by
  obtain ⟨h1, h2, h3⟩ := claim_C1 7 "user"
    (ofList [("where", .vObj (ofList [("id", .vStr "a")])),
      ("data", .vObj (ofList [("x", .vNum 1)]))])
    (ofList [("data", .vObj (ofList [("x", .vNum 1)]))])
    (ofList [("x", .vNum 1)]) (by decide) (by decide)
  exact ⟨by rw [h1]; decide, by rw [h2]; decide, h3 "x" (by decide) (by decide)⟩

/-- C2: for a non-skip-listed model, a findUnique whose where is the
composite-key shape (one entry holding a nested object) is rewritten to a
findFirst whose where is the flat inner mapping plus the isDeleted filter,
with the synthetic outer key discarded; a scalar entry alongside the
composite entry is copied unchanged. -/
theorem claim_C2 (m ck k0 k1 k2 : String) (v0 v1 v2 : JSVal)
    (hm : skipList.contains m = false)
    (h12 : k1 ≠ k2) (h1d : k1 ≠ "isDeleted") (h2d : k2 ≠ "isDeleted")
    (h0obj : jsTypeof v0 ≠ "object")
    (h01 : k0 ≠ k1) (h02 : k0 ≠ k2) (h0d : k0 ≠ "isDeleted") :
    lookupStage ⟨m, "findUnique", .vObj (ofList [("where",
        .vObj (ofList [(ck, .vObj (ofList [(k1, v1), (k2, v2)]))]))])⟩
      = some ⟨m, "findFirst", .vObj (ofList [("where",
          .vObj (ofList [(k1, v1), (k2, v2), ("isDeleted", .vBool false)]))])⟩
    ∧ lookupStage ⟨m, "findUnique", .vObj (ofList [("where",
        .vObj (ofList [(k0, v0), (ck, .vObj (ofList [(k1, v1), (k2, v2)]))]))])⟩
      = some ⟨m, "findFirst", .vObj (ofList [("where",
          .vObj (ofList [(k0, v0), (k1, v1), (k2, v2),
            ("isDeleted", .vBool false)]))])⟩ := by
  have hm2 : m ∉ skipList := by simpa using hm
  constructor
  · simp [lookupStage, hm2, findUniqueRewrite, jsEntries, rebuildWhere,
      processWhereEntry, hoistInto, jsTypeof, ofList, getField, setField,
      h12, h1d, h2d]
  · rcases v0 with _ | _ | b0 | n0 | s0 | t0 | f0
    · simp [lookupStage, hm2, findUniqueRewrite, jsEntries, rebuildWhere,
        processWhereEntry, hoistInto, jsTypeof, ofList, getField, setField,
        h12, h1d, h2d, h01, h02, h0d]
    · exact absurd rfl h0obj
    · simp [lookupStage, hm2, findUniqueRewrite, jsEntries, rebuildWhere,
        processWhereEntry, hoistInto, jsTypeof, ofList, getField, setField,
        h12, h1d, h2d, h01, h02, h0d]
    · simp [lookupStage, hm2, findUniqueRewrite, jsEntries, rebuildWhere,
        processWhereEntry, hoistInto, jsTypeof, ofList, getField, setField,
        h12, h1d, h2d, h01, h02, h0d]
    · simp [lookupStage, hm2, findUniqueRewrite, jsEntries, rebuildWhere,
        processWhereEntry, hoistInto, jsTypeof, ofList, getField, setField,
        h12, h1d, h2d, h01, h02, h0d]
    · exact absurd rfl h0obj
    · exact absurd rfl h0obj

/-- C2 witness at the canonical composite-key lookup. -/
theorem claim_C2_witness :
    lookupStage ⟨"user", "findUnique", .vObj (ofList [("where",
        .vObj (ofList [("k1_k2", .vObj (ofList [("k1", .vStr "a"),
          ("k2", .vStr "b")]))]))])⟩
      = some ⟨"user", "findFirst", .vObj (ofList [("where",
          .vObj (ofList [("k1", .vStr "a"), ("k2", .vStr "b"),
            ("isDeleted", .vBool false)]))])⟩ := by
  exact (claim_C2 "user" "k1_k2" "id" "k1" "k2" (.vStr "x") (.vStr "a") (.vStr "b")
    (by decide) (by decide) (by decide) (by decide) (by decide)
    (by decide) (by decide) (by decide)).1

/-- C3 counterexample: a descriptor for the skip-listed model organization
carrying an include sub-mapping is not forwarded unchanged by the
relation-inclusion stage, because that stage never consults the skip list
for the model of the descriptor itself. -/
theorem claim_C3_counterexample :
    includeStage ⟨"organization", "findMany",
        .vObj (.fcons "include" (.vObj (.fcons "posts" (.vBool true) .fnil)) .fnil)⟩
      ≠ some ⟨"organization", "findMany",
          .vObj (.fcons "include" (.vObj (.fcons "posts" (.vBool true) .fnil)) .fnil)⟩ := by
  decide

/-- C3 amended: a skip-listed model passes through the lookup and tombstone
stages unchanged for every action and arguments shape, but the
relation-inclusion stage consults the skip registry only for include keys:
it forwards the descriptor unchanged exactly when every include key is
itself skip-listed. -/
theorem claim_C3_amended (now : Nat) (m a : String) (args : JSVal)
    (hm : skipList.contains m = true) :
    lookupStage ⟨m, a, args⟩ = some ⟨m, a, args⟩
    ∧ tombstoneStage now ⟨m, a, args⟩ = some ⟨m, a, args⟩
    ∧ ∀ af inc, args = .vObj af → getField af "include" = .vObj inc →
        (∀ k ∈ keys inc, k ∈ skipList) →
        includeStage ⟨m, a, args⟩ = some ⟨m, a, args⟩ := by
  refine ⟨lookupStage_skip _ hm, tombstoneStage_skip _ _ hm, ?_⟩
  intro af inc haf hinc hkeys
  subst haf
  have hset : setField af "include" (.vObj inc) = af :=
    setField_eq_self af "include" (.vObj inc) hinc (by simp)
  simp [includeStage, jsGetProp, hinc, truthy,
    rewriteIncludeFields_skipKeys inc hkeys, hset]

/-- C3 amended witness: a skip-listed model with an include whose only key
is itself skip-listed passes through all three stages unchanged. -/
theorem claim_C3_amended_witness :
    lookupStage ⟨"organization", "findMany",
        .vObj (.fcons "include" (.vObj (.fcons "expand" (.vBool true) .fnil)) .fnil)⟩
      = some ⟨"organization", "findMany",
          .vObj (.fcons "include" (.vObj (.fcons "expand" (.vBool true) .fnil)) .fnil)⟩
    ∧ tombstoneStage 7 ⟨"organization", "findMany",
        .vObj (.fcons "include" (.vObj (.fcons "expand" (.vBool true) .fnil)) .fnil)⟩
      = some ⟨"organization", "findMany",
          .vObj (.fcons "include" (.vObj (.fcons "expand" (.vBool true) .fnil)) .fnil)⟩
    ∧ includeStage ⟨"organization", "findMany",
        .vObj (.fcons "include" (.vObj (.fcons "expand" (.vBool true) .fnil)) .fnil)⟩
      = some ⟨"organization", "findMany",
          .vObj (.fcons "include" (.vObj (.fcons "expand" (.vBool true) .fnil)) .fnil)⟩ := by
  obtain ⟨h1, h2, h3⟩ := claim_C3_amended 7 "organization" "findMany"
    (.vObj (.fcons "include" (.vObj (.fcons "expand" (.vBool true) .fnil)) .fnil))
    (by decide)
  exact ⟨h1, h2,
    h3 (.fcons "include" (.vObj (.fcons "expand" (.vBool true) .fnil)) .fnil)
      (.fcons "expand" (.vBool true) .fnil) rfl (by decide) (by decide)⟩

/-- C4 counterexample: a findUnique whose where explicitly sets the
tombstone field to true is rewritten so that the explicit caller value is
overwritten to false — the read-one rewrite sets the filter
unconditionally, so caller intent does not win there. -/
theorem claim_C4_counterexample :
    lookupStage ⟨"user", "findUnique",
        .vObj (.fcons "where" (.vObj (.fcons "isDeleted" (.vBool true) .fnil)) .fnil)⟩
      = some ⟨"user", "findFirst",
          .vObj (.fcons "where" (.vObj (.fcons "isDeleted" (.vBool false) .fnil)) .fnil)⟩
    ∧ jsGetProp (jsGetProp (JSVal.vObj (.fcons "where"
        (.vObj (.fcons "isDeleted" (.vBool true) .fnil)) .fnil)) "where") "isDeleted"
      = .vBool true := by
  decide

/-- C4 amended: an explicit caller-set tombstone value is never overwritten
by the read-many rewrite or by the relation-inclusion rewrite; the
read-one rewrite instead sets the tombstone filter to false
unconditionally, regardless of what the caller put in the predicate. -/
theorem claim_C4_amended :
    (∀ m af wf, skipList.contains m = false → getField af "where" = .vObj wf →
      getField wf "isDeleted" ≠ .vUndef →
      lookupStage ⟨m, "findMany", .vObj af⟩ = some ⟨m, "findMany", .vObj af⟩)
    ∧ (∀ ef wf, getField ef "where" = .vObj wf → hasField wf "isDeleted" = true →
        rewriteIncludeEntry (.vObj ef) = some (.vObj ef))
    ∧ (∀ m af q, skipList.contains m = false →
        lookupStage ⟨m, "findUnique", .vObj af⟩ = some q →
        jsGetProp (jsGetProp q.args "where") "isDeleted" = .vBool false) := by
  refine ⟨?_, ?_, ?_⟩
  · intro m af wf hm hw hd
    have hm2 : m ∉ skipList := by simpa using hm
    have hfix := findManyRewrite_fixed m "findMany" af wf hw hd
    simp [lookupStage, hm2, hfix]
  · intro ef wf hw hid
    have hww : hasField ef "where" = true :=
      hasField_of_getField ef "where" (by simp [hw])
    simp [rewriteIncludeEntry, truthy, jsTypeof, jsHasOwn, jsGetProp, hww, hw, hid]
  · intro m af q hm h
    have hm2 : m ∉ skipList := by simpa using hm
    simp [lookupStage, hm2, findUniqueRewrite] at h
    rcases he : jsEntries (getField af "where") with _ | entries
    · rw [he] at h
      simp at h
    · rw [he] at h
      simp at h
      rcases hr : rebuildWhere .fnil entries with _ | nw
      · rw [hr] at h
        simp at h
      · rw [hr] at h
        simp at h
        subst h
        simp [jsGetProp, getField_setField_self]

/-- C4 amended witness at concrete read-many, include and read-one
descriptors carrying explicit tombstone values. -/
theorem claim_C4_amended_witness :
    lookupStage ⟨"user", "findMany",
        .vObj (.fcons "where" (.vObj (.fcons "isDeleted" (.vBool true) .fnil)) .fnil)⟩
      = some ⟨"user", "findMany",
          .vObj (.fcons "where" (.vObj (.fcons "isDeleted" (.vBool true) .fnil)) .fnil)⟩
    ∧ rewriteIncludeEntry (.vObj (.fcons "where"
        (.vObj (.fcons "isDeleted" (.vBool true) .fnil)) .fnil))
      = some (.vObj (.fcons "where"
          (.vObj (.fcons "isDeleted" (.vBool true) .fnil)) .fnil))
    ∧ jsGetProp (jsGetProp
        (Option.getD (Option.map Params.args (lookupStage ⟨"user", "findUnique",
          .vObj (.fcons "where" (.vObj (.fcons "id" (.vStr "a") .fnil)) .fnil)⟩))
          JSVal.vNull) "where") "isDeleted" = .vBool false := by
  obtain ⟨h1, h2, h3⟩ := claim_C4_amended
  refine ⟨h1 "user" _ (.fcons "isDeleted" (.vBool true) .fnil) (by decide) (by decide)
      (by decide),
    h2 (.fcons "where" (.vObj (.fcons "isDeleted" (.vBool true) .fnil)) .fnil)
      (.fcons "isDeleted" (.vBool true) .fnil) (by decide) (by decide), ?_⟩
  have h4 := h3 "user" (.fcons "where" (.vObj (.fcons "id" (.vStr "a") .fnil)) .fnil)
    ⟨"user", "findFirst", .vObj (.fcons "where" (.vObj (.fcons "id" (.vStr "a")
      (.fcons "isDeleted" (.vBool false) .fnil))) .fnil)⟩ (by decide) (by decide)
  simpa using h4

/-- C5: on a findUnique whose where contains a null-valued entry, the
rewrite does not treat null as a scalar: since typeof null is "object",
the code takes the hoisting branch and Object.entries(null) throws, so the
lookup stage fails instead of completing with the entry copied as-is. -/
theorem claim_C5_code_behavior :
    lookupStage ⟨"user", "findUnique",
        .vObj (.fcons "where" (.vObj (.fcons "id" JSVal.vNull .fnil)) .fnil)⟩
      = none := by
  decide

/-- C6 counterexample: the delete, read-one and relation-inclusion paths do
not defensively initialize a missing arguments bag — each fails on a
descriptor without arguments. -/
theorem claim_C6_counterexample :
    tombstoneStage 0 ⟨"user", "delete", JSVal.vUndef⟩ = none
    ∧ lookupStage ⟨"user", "findUnique", JSVal.vUndef⟩ = none
    ∧ includeStage ⟨"user", "findMany", JSVal.vUndef⟩ = none := by
  decide

/-- C6 amended: the read-many, delete-many and policy-gated update-stamp
paths defensively initialize a missing arguments bag before use; the
delete, read-one and relation-inclusion paths do not and fail on a
descriptor whose arguments is absent. -/
theorem claim_C6_amended (now : Nat) (m : String)
    (hm : skipList.contains m = false) :
    lookupStage ⟨m, "findMany", JSVal.vUndef⟩
      = some ⟨m, "findMany", .vObj (.fcons "where" notDeletedWhere .fnil)⟩
    ∧ tombstoneStage now ⟨m, "deleteMany", JSVal.vUndef⟩
      = some ⟨m, "updateMany", .vObj (.fcons "data" (tombstoneData now) .fnil)⟩
    ∧ updateStampPolicy true now ⟨m, "update", JSVal.vUndef⟩
      = some ⟨m, "update", .vObj (.fcons "data"
          (.vObj (.fcons "updatedAt" (.vDate now) .fnil)) .fnil)⟩
    ∧ lookupStage ⟨m, "findUnique", JSVal.vUndef⟩ = none
    ∧ tombstoneStage now ⟨m, "delete", JSVal.vUndef⟩ = none
    ∧ includeStage ⟨m, "findMany", JSVal.vUndef⟩ = none := by
  have hm2 : m ∉ skipList := by simpa using hm
  refine ⟨?_, ?_, ?_, ?_, ?_, ?_⟩
  · simp [lookupStage, hm2, findManyRewrite, truthy, getField, setField]
  · simp [tombstoneStage, hm2, deleteManyRewrite, truthy, getField, setField]
  · simp [updateStampPolicy, updateStampStage, truthy, getField, setField]
  · simp [lookupStage, hm2, findUniqueRewrite]
  · simp [tombstoneStage, hm2, deleteRewrite]
  · simp [includeStage]

/-- C6 amended witness at a concrete non-skip-listed model. -/
theorem claim_C6_amended_witness :
    lookupStage ⟨"user", "findMany", JSVal.vUndef⟩
      = some ⟨"user", "findMany", .vObj (.fcons "where" notDeletedWhere .fnil)⟩
    ∧ tombstoneStage 7 ⟨"user", "deleteMany", JSVal.vUndef⟩
      = some ⟨"user", "updateMany", .vObj (.fcons "data" (tombstoneData 7) .fnil)⟩
    ∧ updateStampPolicy true 7 ⟨"user", "update", JSVal.vUndef⟩
      = some ⟨"user", "update", .vObj (.fcons "data"
          (.vObj (.fcons "updatedAt" (.vDate 7) .fnil)) .fnil)⟩
    ∧ lookupStage ⟨"user", "findUnique", JSVal.vUndef⟩ = none
    ∧ tombstoneStage 7 ⟨"user", "delete", JSVal.vUndef⟩ = none
    ∧ includeStage ⟨"user", "findMany", JSVal.vUndef⟩ = none := by
  exact claim_C6_amended 7 "user" (by decide)

theorem lookupStage_findMany (p : Params) (hm : p.model ∉ skipList)
    (ha : p.action = "findMany") : lookupStage p = findManyRewrite p := by
  simp [lookupStage, hm, ha]

theorem updateStampPolicy_other (en : Bool) (now : Nat) (p : Params)
    (h1 : p.action ≠ "updateMany") (h2 : p.action ≠ "update") :
    updateStampPolicy en now p = some p := by
  rcases en
  · rfl
  · simpa [updateStampPolicy] using updateStampStage_other now p h1 h2

/-- C7: running the full chain on a read-many descriptor is idempotent: a
second run (with any policy setting and any clock value) returns the
once-rewritten descriptor unchanged — the injected not-deleted clause is
neither duplicated nor altered. -/
theorem claim_C7 (en en2 : Bool) (now now2 : Nat) (p q : Params)
    (ha : p.action = "findMany")
    (h : applyMiddleware en now p = some q) :
    applyMiddleware en2 now2 q = some q := by
  rcases h1 : lookupStage p with _ | p1
  · simp [applyMiddleware, h1] at h
  rcases h2 : updateStampPolicy en now p1 with _ | p2
  · simp [applyMiddleware, h1, h2] at h
  rcases h3 : tombstoneStage now p2 with _ | p3
  · simp [applyMiddleware, h1, h2, h3] at h
  simp only [applyMiddleware, h1, h2, h3, Option.bind_eq_bind, Option.some_bind] at h
  by_cases hm : p.model ∈ skipList
  · -- skip-listed model: the first two stages forward unchanged
    rw [lookupStage_skip p (by simpa using hm)] at h1
    injection h1 with h1
    subst h1
    rw [updateStampPolicy_other en now p (by simp [ha]) (by simp [ha])] at h2
    injection h2 with h2
    subst h2
    rw [tombstoneStage_skip now p (by simpa using hm)] at h3
    injection h3 with h3
    subst h3
    obtain ⟨hqm, hqa, _⟩ := includeStage_spec p q h
    have hq1 : lookupStage q = some q :=
      lookupStage_skip q (by simpa [hqm] using hm)
    have hq2 : updateStampPolicy en2 now2 q = some q :=
      updateStampPolicy_other en2 now2 q (by simp [hqa, ha]) (by simp [hqa, ha])
    have hq3 : tombstoneStage now2 q = some q :=
      tombstoneStage_skip now2 q (by simpa [hqm] using hm)
    simp only [applyMiddleware, hq1, hq2, hq3, Option.bind_eq_bind, Option.some_bind]
    exact includeStage_idem p q h
  · -- not skip-listed: the findMany rewrite leaves the filter explicit
    rw [lookupStage_findMany p hm ha] at h1
    obtain ⟨hp1m, hp1a, af, wf, hargs, hw, hd⟩ := findManyRewrite_spec p p1 h1
    rw [updateStampPolicy_other en now p1 (by simp [hp1a, ha]) (by simp [hp1a, ha])]
      at h2
    injection h2 with h2
    subst h2
    rw [tombstoneStage_notDelete now p1 (by simpa [hp1m] using hm)
      (by simp [hp1a, ha]) (by simp [hp1a, ha])] at h3
    injection h3 with h3
    subst h3
    obtain ⟨hqm, hqa, hqargs⟩ := includeStage_spec p1 q h
    have hq1 : lookupStage q = some q := by
      rw [lookupStage_findMany q (by simp [hqm, hp1m]; simpa using hm)
        (by simp [hqa, hp1a, ha])]
      obtain ⟨m2, a2, args2⟩ := q
      rcases hqargs with hsame | ⟨af2, nf, haf2, hset⟩
      · simp only at hsame
        subst hsame
        rw [hargs]
        exact findManyRewrite_fixed m2 a2 af wf hw hd
      · rw [haf2] at hargs
        injection hargs with haf
        subst haf
        simp only at hset
        subst hset
        exact findManyRewrite_fixed m2 a2 _ wf
          (by rw [getField_setField_ne _ _ _ _ (by decide)]; exact hw) hd
    have hq2 : updateStampPolicy en2 now2 q = some q :=
      updateStampPolicy_other en2 now2 q (by simp [hqa, hp1a, ha])
        (by simp [hqa, hp1a, ha])
    have hq3 : tombstoneStage now2 q = some q :=
      tombstoneStage_notDelete now2 q (by simp [hqm, hp1m]; simpa using hm)
        (by simp [hqa, hp1a, ha]) (by simp [hqa, hp1a, ha])
    simp only [applyMiddleware, hq1, hq2, hq3, Option.bind_eq_bind, Option.some_bind]
    exact includeStage_idem p1 q h

/-- C7 witness: a concrete findMany descriptor with an include entry, run
through the chain twice. -/
theorem claim_C7_witness :
    applyMiddleware false 7 ⟨"user", "findMany",
        .vObj (.fcons "include" (.vObj (.fcons "posts" (.vBool true) .fnil)) .fnil)⟩
      = some ⟨"user", "findMany",
          .vObj (.fcons "include"
            (.vObj (.fcons "posts" (.vObj (.fcons "where" notDeletedWhere .fnil)) .fnil))
            (.fcons "where" notDeletedWhere .fnil))⟩
    ∧ applyMiddleware true 9 ⟨"user", "findMany",
        .vObj (.fcons "include"
          (.vObj (.fcons "posts" (.vObj (.fcons "where" notDeletedWhere .fnil)) .fnil))
          (.fcons "where" notDeletedWhere .fnil))⟩
      = some ⟨"user", "findMany",
          .vObj (.fcons "include"
            (.vObj (.fcons "posts" (.vObj (.fcons "where" notDeletedWhere .fnil)) .fnil))
            (.fcons "where" notDeletedWhere .fnil))⟩ := by
  refine ⟨by decide, ?_⟩
  exact claim_C7 false true 7 9 ⟨"user", "findMany",
    .vObj (.fcons "include" (.vObj (.fcons "posts" (.vBool true) .fnil)) .fnil)⟩
    _ rfl (by decide)

/-- C8: a non-skip-listed include entry that is boolean true is replaced by
an object whose where is the not-deleted filter; an object entry without a
where clause gains one holding the filter, with all of its other fields
preserved (the new where is appended after them). -/
theorem claim_C8 (m a k : String) (ef : JSFields)
    (hk : skipList.contains k = false)
    (hw : hasField ef "where" = false) :
    rewriteIncludeEntry (.vBool true) = some (.vObj (.fcons "where" notDeletedWhere .fnil))
    ∧ rewriteIncludeEntry (.vObj ef)
        = some (.vObj (fappend ef (.fcons "where" notDeletedWhere .fnil)))
    ∧ includeStage ⟨m, a, .vObj (.fcons "include"
          (.vObj (.fcons k (.vBool true) .fnil)) .fnil)⟩
        = some ⟨m, a, .vObj (.fcons "include"
            (.vObj (.fcons k (.vObj (.fcons "where" notDeletedWhere .fnil)) .fnil)) .fnil)⟩ := by
  have hk2 : k ∉ skipList := by simpa using hk
  refine ⟨by decide, ?_, ?_⟩
  · rw [← setField_of_not_hasField ef "where" notDeletedWhere hw]
    simp [rewriteIncludeEntry, truthy, jsTypeof, jsHasOwn, jsSpread, hw]
  · simp [includeStage, jsGetProp, truthy, getField, setField,
      rewriteIncludeFields, hk2, rewriteIncludeEntry, jsTypeof]

/-- C8 witness at a concrete include mapping. -/
theorem claim_C8_witness :
    rewriteIncludeEntry (.vBool true)
      = some (.vObj (.fcons "where" notDeletedWhere .fnil))
    ∧ rewriteIncludeEntry (.vObj (.fcons "take" (.vNum 3) .fnil))
      = some (.vObj (fappend (.fcons "take" (.vNum 3) .fnil)
          (.fcons "where" notDeletedWhere .fnil)))
    ∧ includeStage ⟨"user", "findMany", .vObj (.fcons "include"
          (.vObj (.fcons "posts" (.vBool true) .fnil)) .fnil)⟩
        = some ⟨"user", "findMany", .vObj (.fcons "include"
            (.vObj (.fcons "posts" (.vObj (.fcons "where" notDeletedWhere .fnil)) .fnil))
            .fnil)⟩ := by
  exact claim_C8 "user" "findMany" "posts" (.fcons "take" (.vNum 3) .fnil)
    (by decide) (by decide)

/-- C9: with the stamping policy enabled, update and updateMany get an
updatedAt value stamped into args.data, with a missing args bag created and
all other data fields left unchanged; every other action kind passes
through the stage untouched. -/
theorem claim_C9 (now : Nat) (m a : String) (af df : JSFields)
    (hdf : getField af "data" = .vObj df)
    (ha1 : a ≠ "update") (ha2 : a ≠ "updateMany") :
    updateStampPolicy true now ⟨m, "update", .vObj af⟩
      = some ⟨m, "update", .vObj (setField af "data"
          (.vObj (setField df "updatedAt" (.vDate now))))⟩
    ∧ updateStampPolicy true now ⟨m, "updateMany", .vObj af⟩
      = some ⟨m, "updateMany", .vObj (setField af "data"
          (.vObj (setField df "updatedAt" (.vDate now))))⟩
    ∧ updateStampPolicy true now ⟨m, "update", JSVal.vUndef⟩
      = some ⟨m, "update", .vObj (.fcons "data"
          (.vObj (.fcons "updatedAt" (.vDate now) .fnil)) .fnil)⟩
    ∧ (∀ k, k ≠ "updatedAt" →
        getField (setField df "updatedAt" (.vDate now)) k = getField df k)
    ∧ ∀ args, updateStampPolicy true now ⟨m, a, args⟩ = some ⟨m, a, args⟩ := by
  refine ⟨?_, ?_, ?_, ?_, ?_⟩
  · simp [updateStampPolicy, updateStampStage, truthy, hdf]
  · simp [updateStampPolicy, updateStampStage, truthy, hdf]
  · simp [updateStampPolicy, updateStampStage, truthy, getField, setField]
  · intro k hk
    exact getField_setField_ne df "updatedAt" k (.vDate now) (Ne.symm hk)
  · intro args
    simp [updateStampPolicy, updateStampStage, ha1, ha2]

/-- C9 witness at concrete update, updateMany and create descriptors. -/
theorem claim_C9_witness :
    updateStampPolicy true 7 ⟨"user", "update",
        .vObj (.fcons "data" (.vObj (.fcons "name" (.vStr "n") .fnil)) .fnil)⟩
      = some ⟨"user", "update", .vObj (.fcons "data"
          (.vObj (.fcons "name" (.vStr "n")
            (.fcons "updatedAt" (.vDate 7) .fnil))) .fnil)⟩
    ∧ updateStampPolicy true 7 ⟨"user", "updateMany",
        .vObj (.fcons "data" (.vObj (.fcons "name" (.vStr "n") .fnil)) .fnil)⟩
      = some ⟨"user", "updateMany", .vObj (.fcons "data"
          (.vObj (.fcons "name" (.vStr "n")
            (.fcons "updatedAt" (.vDate 7) .fnil))) .fnil)⟩
    ∧ updateStampPolicy true 7 ⟨"user", "update", JSVal.vUndef⟩
      = some ⟨"user", "update", .vObj (.fcons "data"
          (.vObj (.fcons "updatedAt" (.vDate 7) .fnil)) .fnil)⟩
    ∧ getField (setField (.fcons "name" (.vStr "n") .fnil) "updatedAt" (.vDate 7)) "name"
      = getField (.fcons "name" (.vStr "n") .fnil) "name"
    ∧ updateStampPolicy true 7 ⟨"user", "create",
        .vObj (.fcons "data" (.vObj (.fcons "name" (.vStr "n") .fnil)) .fnil)⟩
      = some ⟨"user", "create",
          .vObj (.fcons "data" (.vObj (.fcons "name" (.vStr "n") .fnil)) .fnil)⟩ := by
  obtain ⟨h1, h2, h3, h4, h5⟩ := claim_C9 7 "user" "create"
    (.fcons "data" (.vObj (.fcons "name" (.vStr "n") .fnil)) .fnil)
    (.fcons "name" (.vStr "n") .fnil) (by decide) (by decide) (by decide)
  exact ⟨by rw [h1]; decide, by rw [h2]; decide, h3,
    h4 "name" (by decide), h5 _⟩

/-- C10: an include entry whose value is falsy (false, null, undefined, or
any other falsy value) is left completely unchanged by the
relation-inclusion stage: no where clause is injected and the value set
by the caller is preserved. -/
theorem claim_C10 (m a k : String) (e : JSVal) (he : truthy e = false) :
    rewriteIncludeEntry e = some e
    ∧ includeStage ⟨m, a, .vObj (.fcons "include"
          (.vObj (.fcons k e .fnil)) .fnil)⟩
        = some ⟨m, a, .vObj (.fcons "include"
            (.vObj (.fcons k e .fnil)) .fnil)⟩ := by
  have h1 : rewriteIncludeEntry e = some e := by
    simp [rewriteIncludeEntry, he]
  refine ⟨h1, ?_⟩
  by_cases hk : k ∈ skipList
  · simp [includeStage, jsGetProp, truthy, getField, setField,
      rewriteIncludeFields, hk]
  · simp [includeStage, jsGetProp, truthy, getField, setField,
      rewriteIncludeFields, hk, h1]

/-- C10 witness at the three falsy values named by the claim. -/
theorem claim_C10_witness :
    (rewriteIncludeEntry (.vBool false) = some (.vBool false)
      ∧ includeStage ⟨"user", "findMany", .vObj (.fcons "include"
            (.vObj (.fcons "posts" (.vBool false) .fnil)) .fnil)⟩
          = some ⟨"user", "findMany", .vObj (.fcons "include"
              (.vObj (.fcons "posts" (.vBool false) .fnil)) .fnil)⟩)
    ∧ (rewriteIncludeEntry JSVal.vNull = some JSVal.vNull)
    ∧ (rewriteIncludeEntry JSVal.vUndef = some JSVal.vUndef) := by
  exact ⟨claim_C10 "user" "findMany" "posts" (.vBool false) (by decide),
    (claim_C10 "user" "findMany" "posts" JSVal.vNull (by decide)).1,
    (claim_C10 "user" "findMany" "posts" JSVal.vUndef (by decide)).1⟩

end SoftDelete
